import Mathlib

/-!
# Verification of the tabular cleaning pipeline (`data_prep.py`)

A shallow embedding of the CSV → cleaned-`.xlsx` pipeline of
`src/data_prep.py`.  Strings are embedded as `List Char`; a table
(pandas `DataFrame`) is a list of named, typed columns of cells.

Scope notes on the embedding:
* Python string operations (`.strip()`, `.lower()`, `.replace`, `in`,
  `.split`) are modelled character-wise; `.lower()` is modelled on the
  ASCII range (`'A'..'Z'` map to `'a'..'z'`, everything else is fixed),
  which is the fragment the pipeline's claims exercise.
* The collaborator library calls (`pandas.read_csv`, `pandas.concat`,
  `pandas.to_datetime`, spreadsheet export) are modelled as black-box
  table operations following the observable behaviour the script relies
  on; `to_datetime(errors="coerce")` is modelled cell-wise with an ISO
  `YYYY-MM-DD` parser (failures become the null marker `NaT`).
-/

set_option maxRecDepth 4096

namespace DataPrep

/-! ## Character-level helpers (Python string semantics, ASCII fragment) -/

/-- Python whitespace test used by `str.strip()` on the ASCII range:
space, tab, newline, carriage return, vertical tab, form feed. -/
def pyIsSpace (c : Char) : Bool :=
  decide (c.toNat = 32 ∨ c.toNat = 9 ∨ c.toNat = 10 ∨ c.toNat = 13 ∨
          c.toNat = 11 ∨ c.toNat = 12)

/-- The separator set of `normalize_col_name`: the characters the chained
`.replace(...)` calls send to `'_'` — space (32), `'-'` (45), `'/'` (47),
`'\\'` (92), `'.'` (46). -/
def isSepChar (c : Char) : Bool :=
  decide (c.toNat = 32 ∨ c.toNat = 45 ∨ c.toNat = 47 ∨ c.toNat = 92 ∨
          c.toNat = 46)

/-- One character of the chained `.replace` calls of `normalize_col_name`:
each replaced character is a single character replaced by `'_'`, so the
five sequential `str.replace` calls act character-wise. -/
def replChar (c : Char) : Char :=
  if isSepChar c then '_' else c

/-- One character of Python `str.lower()` (ASCII fragment): `'A'..'Z'`
(65–90) map to `'a'..'z'` (97–122), other characters are unchanged. -/
def pyLowerChar (c : Char) : Char :=
  if 65 ≤ c.toNat ∧ c.toNat ≤ 90 then Char.ofNat (c.toNat + 32) else c

/-- Python `str.strip()`: drop leading and trailing whitespace. -/
def pyStrip (s : List Char) : List Char :=
  ((s.dropWhile pyIsSpace).reverse.dropWhile pyIsSpace).reverse

/-- The fixpoint of `while "__" in name: name = name.replace("__", "_")`:
every maximal run of consecutive underscores is collapsed to a single
underscore (the loop stops exactly when no `"__"` remains, and repeated
`replace("__", "_")` shortens every run until it has length 1). -/
def collapseUnderscores : List Char → List Char
  | [] => []
  | [c] => [c]
  | a :: b :: rest =>
    if a = '_' ∧ b = '_' then collapseUnderscores (b :: rest)
    else a :: collapseUnderscores (b :: rest)

/-- Embeds `normalize_col_name` (src/data_prep.py:33–47): strip, replace the
separator characters with `'_'`, collapse runs of underscores, lower. -/
def normalizeColName (name : List Char) : List Char :=
  ((collapseUnderscores ((pyStrip name).map replChar)).map pyLowerChar)

/-! ### Character-level lemmas -/

theorem toNat_ofNat_of_le (n : Nat) (h : n ≤ 122) : (Char.ofNat n).toNat = n := by
  have hv : Nat.isValidChar n := Or.inl (by omega)
  simp [Char.ofNat, hv, Char.ofNatAux, Char.toNat, UInt32.toNat]

theorem char_eq_of_toNat_eq {a b : Char} (h : a.toNat = b.toNat) : a = b := by
  apply Char.eq_of_val_eq
  apply UInt32.eq_of_toBitVec_eq
  apply BitVec.eq_of_toNat_eq
  exact h

theorem toNat_pyLowerChar_of_upper {c : Char} (h : 65 ≤ c.toNat ∧ c.toNat ≤ 90) :
    (pyLowerChar c).toNat = c.toNat + 32 := by
  unfold pyLowerChar
  rw [if_pos h]
  exact toNat_ofNat_of_le _ (by omega)

theorem pyLowerChar_eq_of_not_upper {c : Char} (h : ¬(65 ≤ c.toNat ∧ c.toNat ≤ 90)) :
    pyLowerChar c = c := by
  unfold pyLowerChar
  rw [if_neg h]

theorem pyLowerChar_not_upper (c : Char) :
    ¬(65 ≤ (pyLowerChar c).toNat ∧ (pyLowerChar c).toNat ≤ 90) := by
  by_cases h : 65 ≤ c.toNat ∧ c.toNat ≤ 90
  · rw [toNat_pyLowerChar_of_upper h]; omega
  · rw [pyLowerChar_eq_of_not_upper h]; exact h

theorem pyLowerChar_idem (c : Char) : pyLowerChar (pyLowerChar c) = pyLowerChar c :=
  pyLowerChar_eq_of_not_upper (pyLowerChar_not_upper c)

theorem pyIsSpace_pyLowerChar (c : Char) : pyIsSpace (pyLowerChar c) = pyIsSpace c := by
  by_cases h : 65 ≤ c.toNat ∧ c.toNat ≤ 90
  · have h1 := toNat_pyLowerChar_of_upper h
    simp only [pyIsSpace, decide_eq_decide, h1]
    omega
  · rw [pyLowerChar_eq_of_not_upper h]

theorem isSepChar_pyLowerChar (c : Char) : isSepChar (pyLowerChar c) = isSepChar c := by
  by_cases h : 65 ≤ c.toNat ∧ c.toNat ≤ 90
  · have h1 := toNat_pyLowerChar_of_upper h
    simp only [isSepChar, decide_eq_decide, h1]
    omega
  · rw [pyLowerChar_eq_of_not_upper h]

theorem pyLowerChar_eq_underscore_iff (c : Char) : pyLowerChar c = '_' ↔ c = '_' := by
  constructor
  · intro h
    by_cases hc : 65 ≤ c.toNat ∧ c.toNat ≤ 90
    · exfalso
      have h1 := toNat_pyLowerChar_of_upper hc
      rw [h] at h1
      have h2 : ('_').toNat = 95 := by decide
      rw [h2] at h1
      omega
    · rwa [pyLowerChar_eq_of_not_upper hc] at h
  · intro h
    subst h
    exact pyLowerChar_eq_of_not_upper (by decide)

theorem replChar_pyLowerChar (c : Char) :
    replChar (pyLowerChar c) = pyLowerChar (replChar c) := by
  by_cases hs : isSepChar c = true
  · have hnotup : ¬(65 ≤ c.toNat ∧ c.toNat ≤ 90) := by
      simp only [isSepChar, decide_eq_true_eq] at hs
      omega
    rw [pyLowerChar_eq_of_not_upper hnotup]
    unfold replChar
    rw [if_pos hs]
    exact (pyLowerChar_eq_of_not_upper (by decide)).symm
  · have hs2 : isSepChar (pyLowerChar c) = false := by
      rw [isSepChar_pyLowerChar]; exact Bool.not_eq_true _ ▸ (by simpa using hs)
    unfold replChar
    rw [if_neg (by simp [hs2]), if_neg (by simp [hs])]

theorem replChar_eq_underscore_or_self (c : Char) :
    replChar c = '_' ∨ replChar c = c := by
  unfold replChar
  by_cases h : isSepChar c = true
  · left; rw [if_pos h]
  · right; rw [if_neg h]

theorem replChar_eq_self_of_not_sep {c : Char} (h : isSepChar c = false) :
    replChar c = c := by
  unfold replChar; rw [h]; simp

theorem isSepChar_replChar (c : Char) : isSepChar (replChar c) = false := by
  unfold replChar
  by_cases h : isSepChar c = true
  · rw [if_pos h]; decide
  · rw [if_neg h]; simpa using h

theorem pyIsSpace_replChar_of_not_space {c : Char} (h : pyIsSpace c = false) :
    pyIsSpace (replChar c) = false := by
  rcases replChar_eq_underscore_or_self c with h1 | h1 <;> rw [h1]
  · decide
  · exact h

theorem replChar_ne_space (c : Char) : replChar c ≠ ' ' := by
  unfold replChar
  by_cases h : isSepChar c = true
  · rw [if_pos h]; decide
  · rw [if_neg h]
    intro hc
    subst hc
    exact h (by decide)

theorem pyLowerChar_eq_space_iff (c : Char) : pyLowerChar c = ' ' ↔ c = ' ' := by
  constructor
  · intro h
    by_cases hc : 65 ≤ c.toNat ∧ c.toNat ≤ 90
    · exfalso
      have h1 := toNat_pyLowerChar_of_upper hc
      rw [h] at h1
      have h2 : (' ').toNat = 32 := by decide
      rw [h2] at h1
      omega
    · rwa [pyLowerChar_eq_of_not_upper hc] at h
  · intro h
    subst h
    exact pyLowerChar_eq_of_not_upper (by decide)

/-! ### Collapse lemmas -/

/-- The test `"__" in name` as a Boolean scan: some two adjacent characters are
both underscores. -/
def hasDoubleUnderscore : List Char → Bool
  | a :: b :: rest => (a = '_' && b = '_') || hasDoubleUnderscore (b :: rest)
  | _ => false

theorem collapseUnderscores_cons_ne_nil (a : Char) (l : List Char) :
    collapseUnderscores (a :: l) ≠ [] := by
  induction l generalizing a with
  | nil => simp [collapseUnderscores]
  | cons b rest ih =>
    unfold collapseUnderscores
    by_cases h : a = '_' ∧ b = '_'
    · rw [if_pos h]; exact ih b
    · rw [if_neg h]; simp

theorem head?_collapseUnderscores (l : List Char) :
    (collapseUnderscores l).head? = l.head? := by
  induction l using collapseUnderscores.induct with
  | case1 => rfl
  | case2 c => rfl
  | case3 a b rest h ih =>
    unfold collapseUnderscores
    rw [if_pos h, ih]
    simp [h.1, h.2]
  | case4 a b rest h ih =>
    unfold collapseUnderscores
    rw [if_neg h]
    rfl

theorem getLast?_collapseUnderscores (l : List Char) :
    (collapseUnderscores l).getLast? = l.getLast? := by
  induction l using collapseUnderscores.induct with
  | case1 => rfl
  | case2 c => rfl
  | case3 a b rest h ih =>
    unfold collapseUnderscores
    rw [if_pos h, ih, List.getLast?_cons_cons]
  | case4 a b rest h ih =>
    unfold collapseUnderscores
    rw [if_neg h]
    rcases hx : collapseUnderscores (b :: rest) with _ | ⟨x, xs⟩
    · exact absurd hx (collapseUnderscores_cons_ne_nil b rest)
    · rw [List.getLast?_cons_cons, ← hx, ih, List.getLast?_cons_cons]

theorem mem_collapseUnderscores {c : Char} {l : List Char}
    (h : c ∈ collapseUnderscores l) : c ∈ l := by
  induction l using collapseUnderscores.induct with
  | case1 => simp [collapseUnderscores] at h
  | case2 d => simp [collapseUnderscores] at h; simp [h]
  | case3 a b rest hab ih =>
    unfold collapseUnderscores at h
    rw [if_pos hab] at h
    exact List.mem_cons_of_mem a (ih h)
  | case4 a b rest hab ih =>
    unfold collapseUnderscores at h
    rw [if_neg hab] at h
    rcases List.mem_cons.mp h with h1 | h1
    · exact h1 ▸ List.mem_cons_self a _
    · exact List.mem_cons_of_mem a (ih h1)

theorem hasDoubleUnderscore_collapseUnderscores (l : List Char) :
    hasDoubleUnderscore (collapseUnderscores l) = false := by
  induction l using collapseUnderscores.induct with
  | case1 => rfl
  | case2 c => rfl
  | case3 a b rest h ih =>
    unfold collapseUnderscores
    rw [if_pos h]
    exact ih
  | case4 a b rest h ih =>
    unfold collapseUnderscores
    rw [if_neg h]
    rcases hx : collapseUnderscores (b :: rest) with _ | ⟨x, xs⟩
    · exact absurd hx (collapseUnderscores_cons_ne_nil b rest)
    · have hb : x = b := by
        have := head?_collapseUnderscores (b :: rest)
        rw [hx] at this
        simpa using this
      unfold hasDoubleUnderscore
      rw [← hx, ih, Bool.or_false]
      subst hb
      rcases (Decidable.not_and_iff_or_not ..).mp h with h1 | h1 <;>
        simp [h1]

theorem collapseUnderscores_eq_self {l : List Char}
    (h : hasDoubleUnderscore l = false) : collapseUnderscores l = l := by
  induction l using collapseUnderscores.induct with
  | case1 => rfl
  | case2 c => rfl
  | case3 a b rest hab ih =>
    exfalso
    unfold hasDoubleUnderscore at h
    rw [hab.1, hab.2] at h
    simp at h
  | case4 a b rest hab ih =>
    unfold collapseUnderscores
    rw [if_neg hab]
    unfold hasDoubleUnderscore at h
    rw [Bool.or_eq_false_iff] at h
    rw [ih h.2]

theorem hasDoubleUnderscore_map {f : Char → Char}
    (hf : ∀ c, f c = '_' ↔ c = '_') (l : List Char) :
    hasDoubleUnderscore (l.map f) = hasDoubleUnderscore l := by
  induction l with
  | nil => rfl
  | cons a rest ih =>
    rcases rest with _ | ⟨b, rest'⟩
    · rfl
    · show hasDoubleUnderscore (f a :: f b :: _) = _
      unfold hasDoubleUnderscore
      have hmap : hasDoubleUnderscore (f b :: List.map f rest') =
          hasDoubleUnderscore (b :: rest') := ih
      rw [hmap]
      by_cases ha : a = '_' <;> by_cases hb : b = '_' <;>
        simp [hf, ha, hb]

theorem collapseUnderscores_map {f : Char → Char}
    (hf : ∀ c, f c = '_' ↔ c = '_') (l : List Char) :
    collapseUnderscores (l.map f) = (collapseUnderscores l).map f := by
  induction l using collapseUnderscores.induct with
  | case1 => rfl
  | case2 c => rfl
  | case3 a b rest h ih =>
    show collapseUnderscores (f a :: f b :: _) = _
    unfold collapseUnderscores
    rw [if_pos ⟨(hf a).mpr h.1, (hf b).mpr h.2⟩, if_pos h]
    exact ih
  | case4 a b rest h ih =>
    show collapseUnderscores (f a :: f b :: _) = _
    unfold collapseUnderscores
    have h' : ¬(f a = '_' ∧ f b = '_') := by
      intro hc
      exact h ⟨(hf a).mp hc.1, (hf b).mp hc.2⟩
    rw [if_neg h', if_neg h]
    show f a :: collapseUnderscores (List.map f (b :: rest)) =
      f a :: List.map f (collapseUnderscores (b :: rest))
    rw [ih]

/-! ### Strip lemmas -/

theorem head?_dropWhile_not {p : Char → Bool} {l : List Char} {c : Char}
    (h : (l.dropWhile p).head? = some c) : p c = false := by
  induction l with
  | nil => simp [List.dropWhile] at h
  | cons a rest ih =>
    rw [List.dropWhile_cons] at h
    by_cases ha : p a = true
    · rw [if_pos ha] at h
      exact ih h
    · rw [if_neg ha] at h
      simp at h
      subst h
      simpa using ha

theorem head?_pyStrip_not_space {s : List Char} {c : Char}
    (h : (pyStrip s).head? = some c) : pyIsSpace c = false := by
  unfold pyStrip at h
  set t := s.dropWhile pyIsSpace with ht
  set z := t.reverse.dropWhile pyIsSpace with hz
  rw [List.head?_reverse] at h
  -- `z` is a suffix of `t.reverse`, so its last element is the last of
  -- `t.reverse`, i.e. the head of `t`, which `dropWhile` left non-space.
  have hsfx : t.reverse.dropWhile pyIsSpace <:+ t.reverse :=
    List.dropWhile_suffix pyIsSpace
  rcases hsfx with ⟨pre, hpre⟩
  rw [← hz] at hpre
  have hzne : z ≠ [] := by
    intro hnil
    rw [hnil] at h
    simp at h
  have h1 : (pre ++ z).getLast? = z.getLast? := by
    rw [List.getLast?_append]
    rcases hlast : z.getLast? with _ | d
    · exact absurd (List.getLast?_eq_none_iff.mp hlast) hzne
    · rfl
  rw [hpre, List.getLast?_reverse] at h1
  rw [h] at h1
  rw [ht] at h1
  exact head?_dropWhile_not h1

theorem getLast?_pyStrip_not_space {s : List Char} {c : Char}
    (h : (pyStrip s).getLast? = some c) : pyIsSpace c = false := by
  unfold pyStrip at h
  rw [List.getLast?_reverse] at h
  exact head?_dropWhile_not h

theorem dropWhile_eq_self_of_head {p : Char → Bool} {l : List Char}
    (h : ∀ c, l.head? = some c → p c = false) : l.dropWhile p = l := by
  cases l with
  | nil => rfl
  | cons a rest =>
    rw [List.dropWhile_cons, if_neg]
    simp [h a rfl]

theorem pyStrip_eq_self {s : List Char}
    (h1 : ∀ c, s.head? = some c → pyIsSpace c = false)
    (h2 : ∀ c, s.getLast? = some c → pyIsSpace c = false) :
    pyStrip s = s := by
  unfold pyStrip
  rw [dropWhile_eq_self_of_head h1]
  rw [dropWhile_eq_self_of_head (by
    intro c hc
    rw [List.head?_reverse] at hc
    exact h2 c hc)]
  exact List.reverse_reverse s

/-! ### Shape of `normalize_col_name` output -/

theorem mem_normalizeColName_shape {c : Char} {s : List Char}
    (h : c ∈ normalizeColName s) : ∃ d, c = pyLowerChar (replChar d) := by
  unfold normalizeColName at h
  rcases List.mem_map.mp h with ⟨e, he, hce⟩
  rcases List.mem_map.mp (mem_collapseUnderscores he) with ⟨d, _, hde⟩
  exact ⟨d, by rw [← hce, ← hde]⟩

theorem normalizeColName_map_pyLowerChar (s : List Char) :
    (normalizeColName s).map pyLowerChar = normalizeColName s := by
  unfold normalizeColName
  rw [List.map_map]
  exact List.map_congr_left (fun c _ => pyLowerChar_idem c)

theorem space_not_mem_normalizeColName (s : List Char) :
    ' ' ∉ normalizeColName s := by
  intro hmem
  rcases mem_normalizeColName_shape hmem with ⟨d, hd⟩
  exact replChar_ne_space d ((pyLowerChar_eq_space_iff (replChar d)).mp hd.symm)

theorem hasDoubleUnderscore_normalizeColName (s : List Char) :
    hasDoubleUnderscore (normalizeColName s) = false := by
  unfold normalizeColName
  rw [hasDoubleUnderscore_map pyLowerChar_eq_underscore_iff]
  exact hasDoubleUnderscore_collapseUnderscores _

/-- C1 (amended): the normalizer is a total function whose output equals
its own lower-casing, contains no space character, and contains no run of
two or more consecutive underscores.  (The original claim's "no
whitespace characters" fails: interior tabs and newlines are neither
stripped nor replaced — see the counterexample.) -/
theorem normalize_col_name_total (s : List Char) :
    (normalizeColName s).map pyLowerChar = normalizeColName s ∧
    ' ' ∉ normalizeColName s ∧
    hasDoubleUnderscore (normalizeColName s) = false :=
  ⟨normalizeColName_map_pyLowerChar s, space_not_mem_normalizeColName s,
    hasDoubleUnderscore_normalizeColName s⟩

/-- C1 counterexample to the claim as stated: on input `"a\tb"` the
normalizer returns `"a\tb"` unchanged, which still contains the
whitespace character `'\t'` — the output is not whitespace-free. -/
theorem normalize_col_name_whitespace_cex :
    (normalizeColName ('a' :: '\t' :: 'b' :: [])).any pyIsSpace = true := by
  decide

/-- C8: the column-name normalizer is idempotent — normalizing an
already-normalized name returns it unchanged. -/
theorem normalize_col_name_idempotent (s : List Char) :
    normalizeColName (normalizeColName s) = normalizeColName s := by
  have hhead : ∀ c, (normalizeColName s).head? = some c → pyIsSpace c = false := by
    intro c hc
    unfold normalizeColName at hc
    rw [List.head?_map, head?_collapseUnderscores, List.head?_map] at hc
    rcases hd : (pyStrip s).head? with _ | d
    · rw [hd] at hc; simp at hc
    · rw [hd] at hc
      simp only [Option.map_some'] at hc
      rw [Option.some_inj] at hc
      rw [← hc, pyIsSpace_pyLowerChar]
      exact pyIsSpace_replChar_of_not_space (head?_pyStrip_not_space hd)
  have hlast : ∀ c, (normalizeColName s).getLast? = some c → pyIsSpace c = false := by
    intro c hc
    unfold normalizeColName at hc
    rw [List.getLast?_map, getLast?_collapseUnderscores, List.getLast?_map] at hc
    rcases hd : (pyStrip s).getLast? with _ | d
    · rw [hd] at hc; simp at hc
    · rw [hd] at hc
      simp only [Option.map_some'] at hc
      rw [Option.some_inj] at hc
      rw [← hc, pyIsSpace_pyLowerChar]
      exact pyIsSpace_replChar_of_not_space (getLast?_pyStrip_not_space hd)
  have h1 : pyStrip (normalizeColName s) = normalizeColName s :=
    pyStrip_eq_self hhead hlast
  have h2 : (normalizeColName s).map replChar = normalizeColName s := by
    have hcongr : ∀ c ∈ normalizeColName s, replChar c = id c := by
      intro c hc
      rcases mem_normalizeColName_shape hc with ⟨d, hd⟩
      rw [hd]
      have hsep : isSepChar (pyLowerChar (replChar d)) = false := by
        rw [isSepChar_pyLowerChar]
        exact isSepChar_replChar d
      exact replChar_eq_self_of_not_sep hsep
    rw [List.map_congr_left hcongr, List.map_id]
  have h3 : collapseUnderscores (normalizeColName s) = normalizeColName s :=
    collapseUnderscores_eq_self (hasDoubleUnderscore_normalizeColName s)
  show ((collapseUnderscores ((pyStrip (normalizeColName s)).map replChar)).map
    pyLowerChar) = normalizeColName s
  rw [h1, h2, h3, normalizeColName_map_pyLowerChar]

/-! ### Substring matching (Python `in` on strings)

`needle in haystack` for Python strings, as a Boolean scan, plus the
lemmas showing that matching a keyword made of lower-case letters is
unaffected by each phase of `normalize_col_name`. -/

/-- Boolean "starts with". -/
def startsWithChars : List Char → List Char → Bool
  | [], _ => true
  | _ :: _, [] => false
  | a :: as, b :: bs => decide (a = b) && startsWithChars as bs

/-- Boolean substring test: Python `pat in s`. -/
def containsSub (pat : List Char) : List Char → Bool
  | [] => pat.isEmpty
  | b :: bs => startsWithChars pat (b :: bs) || containsSub pat bs

theorem startsWithChars_correct (pat l : List Char) :
    startsWithChars pat l = true ↔ pat <+: l := by
  induction pat generalizing l with
  | nil =>
    simp [startsWithChars, List.nil_prefix]
  | cons a as ih =>
    cases l with
    | nil =>
      simp [startsWithChars, List.prefix_nil]
    | cons b bs =>
      have hcons : a :: as <+: b :: bs ↔ a = b ∧ as <+: bs := List.cons_prefix_cons
      simp [startsWithChars, hcons, ih]

theorem containsSub_correct (pat l : List Char) :
    containsSub pat l = true ↔ pat <:+: l := by
  induction l with
  | nil =>
    have hnil : pat <:+: ([] : List Char) ↔ pat = [] := List.infix_nil
    simp [containsSub, hnil, List.isEmpty_iff]
  | cons b bs ih =>
    have hcons : pat <:+: b :: bs ↔ pat <+: b :: bs ∨ pat <:+: bs :=
      List.infix_cons_iff
    simp [containsSub, hcons, ih, startsWithChars_correct]

/-- Matching is invariant under `reverse` when the pattern is reversed. -/
theorem containsSub_reverse (pat l : List Char) :
    containsSub pat l.reverse = containsSub pat.reverse l := by
  rw [Bool.eq_iff_iff, containsSub_correct, containsSub_correct]
  have h1 : pat.reverse.reverse <:+: l.reverse ↔ pat.reverse <:+: l :=
    List.reverse_infix
  rw [← h1, List.reverse_reverse]

/-- Dropping a whitespace prefix cannot destroy or create an occurrence
of a whitespace-free, nonempty pattern. -/
theorem containsSub_dropWhile_space (pat : List Char) (hne : pat ≠ [])
    (hp : ∀ c ∈ pat, pyIsSpace c = false) (l : List Char) :
    containsSub pat (l.dropWhile pyIsSpace) = containsSub pat l := by
  induction l with
  | nil => rfl
  | cons b bs ih =>
    rw [List.dropWhile_cons]
    by_cases hb : pyIsSpace b = true
    · rw [if_pos hb]
      rw [ih]
      show _ = (startsWithChars pat (b :: bs) || containsSub pat bs)
      rcases pat with _ | ⟨p, ps⟩
      · exact absurd rfl hne
      · have hpb : decide (p = b) = false := by
          have hfalse := hp p (List.mem_cons_self _ _)
          rcases Decidable.em (p = b) with hpc | hpc
          · rw [hpc] at hfalse
            rw [hfalse] at hb
            exact absurd hb (by simp)
          · simp [hpc]
        show containsSub (p :: ps) bs =
          ((decide (p = b) && startsWithChars ps bs) || containsSub (p :: ps) bs)
        rw [hpb]
        simp
    · rw [if_neg hb]

/-- The five `replace` calls cannot destroy or create an occurrence of a
pattern that contains neither a separator character nor an underscore. -/
theorem startsWithChars_map_replChar (pat : List Char)
    (hp : ∀ c ∈ pat, isSepChar c = false ∧ c ≠ '_') (l : List Char) :
    startsWithChars pat (l.map replChar) = startsWithChars pat l := by
  induction pat generalizing l with
  | nil => rfl
  | cons p ps ih =>
    cases l with
    | nil => rfl
    | cons b bs =>
      show (decide (p = replChar b) && startsWithChars ps (bs.map replChar)) =
        (decide (p = b) && startsWithChars ps bs)
      have hps : ∀ c ∈ ps, isSepChar c = false ∧ c ≠ '_' :=
        fun c hc => hp c (List.mem_cons_of_mem p hc)
      rw [ih hps]
      have hpp := hp p (List.mem_cons_self _ _)
      have heq : decide (p = replChar b) = decide (p = b) := by
        rcases replChar_eq_underscore_or_self b with hr | hr
        · rw [hr]
          have h1 : p ≠ '_' := hpp.2
          have h2 : p ≠ b := by
            intro hc
            subst hc
            have : replChar p = '_' := hr
            rcases replChar_eq_underscore_or_self p with _ | hself
            · unfold replChar at this
              by_cases hsep : isSepChar p = true
              · rw [hpp.1] at hsep; exact absurd hsep (by simp)
              · rw [if_neg hsep] at this; exact h1 this
            · rw [hself] at this; exact h1 this
          simp [h1, h2]
        · rw [hr]
      rw [heq]

theorem containsSub_map_replChar (pat : List Char)
    (hp : ∀ c ∈ pat, isSepChar c = false ∧ c ≠ '_') (l : List Char) :
    containsSub pat (l.map replChar) = containsSub pat l := by
  induction l with
  | nil => rfl
  | cons b bs ih =>
    show (startsWithChars pat (replChar b :: bs.map replChar) || _) = _
    have h1 : startsWithChars pat (replChar b :: bs.map replChar) =
        startsWithChars pat (b :: bs) :=
      startsWithChars_map_replChar pat hp (b :: bs)
    rw [h1, ih]
    rfl

/-- Collapsing underscore runs cannot destroy or create an occurrence of
an underscore-free pattern (prefix version, for every such pattern). -/
theorem startsWithChars_collapse (l : List Char) :
    ∀ pat : List Char, (∀ c ∈ pat, c ≠ '_') →
      startsWithChars pat (collapseUnderscores l) = startsWithChars pat l := by
  induction l using collapseUnderscores.induct with
  | case1 => intro pat hp; rfl
  | case2 c => intro pat hp; rfl
  | case3 a b rest h ih =>
    intro pat hp
    unfold collapseUnderscores
    rw [if_pos h, ih pat hp]
    rcases pat with _ | ⟨p, ps⟩
    · rfl
    · have hpu : decide (p = a) = false := by
        have := hp p (List.mem_cons_self _ _)
        simp [h.1, this]
      have hpb : decide (p = b) = false := by
        have := hp p (List.mem_cons_self _ _)
        simp [h.2, this]
      show (decide (p = b) && _) = (decide (p = a) && _)
      rw [hpu, hpb]
      simp
  | case4 a b rest h ih =>
    intro pat hp
    unfold collapseUnderscores
    rw [if_neg h]
    rcases pat with _ | ⟨p, ps⟩
    · rfl
    · show (decide (p = a) && startsWithChars ps (collapseUnderscores (b :: rest))) = _
      have hps : ∀ c ∈ ps, c ≠ '_' := fun c hc => hp c (List.mem_cons_of_mem p hc)
      rw [ih ps hps]
      rfl

theorem containsSub_collapse (pat : List Char) (hne : pat ≠ [])
    (hp : ∀ c ∈ pat, c ≠ '_') (l : List Char) :
    containsSub pat (collapseUnderscores l) = containsSub pat l := by
  induction l using collapseUnderscores.induct with
  | case1 => rfl
  | case2 c => rfl
  | case3 a b rest h ih =>
    unfold collapseUnderscores
    rw [if_pos h, ih]
    show _ = (startsWithChars pat (a :: b :: rest) || containsSub pat (b :: rest))
    rcases pat with _ | ⟨p, ps⟩
    · exact absurd rfl hne
    · have hpu : decide (p = a) = false := by
        have := hp p (List.mem_cons_self _ _)
        simp [h.1, this]
      show containsSub (p :: ps) (b :: rest) =
        ((decide (p = a) && _) || containsSub (p :: ps) (b :: rest))
      rw [hpu]
      simp
  | case4 a b rest h ih =>
    unfold collapseUnderscores
    rw [if_neg h]
    show (startsWithChars pat (a :: collapseUnderscores (b :: rest)) ||
      containsSub pat (collapseUnderscores (b :: rest))) = _
    rw [ih]
    rcases pat with _ | ⟨p, ps⟩
    · rfl
    · show ((decide (p = a) && startsWithChars ps (collapseUnderscores (b :: rest))) || _) = _
      have hps : ∀ c ∈ ps, c ≠ '_' := fun c hc => hp c (List.mem_cons_of_mem p hc)
      rw [startsWithChars_collapse (b :: rest) ps hps]
      rfl

theorem pyStrip_map_pyLowerChar (s : List Char) :
    pyStrip (s.map pyLowerChar) = (pyStrip s).map pyLowerChar := by
  have hW : (pyIsSpace ∘ pyLowerChar) = pyIsSpace := funext pyIsSpace_pyLowerChar
  unfold pyStrip
  rw [List.dropWhile_map, hW, ← List.map_reverse, List.dropWhile_map, hW,
    ← List.map_reverse]

/-- A keyword of lower-case letters occurs in the lower-cased raw name
iff it occurs in the normalized name: every phase of
`normalize_col_name` preserves such occurrences in both directions. -/
theorem containsSub_normalizeColName (kw : List Char) (hne : kw ≠ [])
    (hlet : ∀ c ∈ kw, 97 ≤ c.toNat ∧ c.toNat ≤ 122) (s : List Char) :
    containsSub kw (normalizeColName s) = containsSub kw (s.map pyLowerChar) := by
  have hund : ∀ c ∈ kw, c ≠ '_' := by
    intro c hc hu
    have h1 := hlet c hc
    rw [hu] at h1
    have h2 : ('_').toNat = 95 := by decide
    rw [h2] at h1
    omega
  have hsep : ∀ c ∈ kw, isSepChar c = false ∧ c ≠ '_' := by
    intro c hc
    refine ⟨?_, hund c hc⟩
    have h1 := hlet c hc
    simp only [isSepChar, decide_eq_false_iff_not]
    omega
  have hsp : ∀ c ∈ kw, pyIsSpace c = false := by
    intro c hc
    have h1 := hlet c hc
    simp only [pyIsSpace, decide_eq_false_iff_not]
    omega
  have hrw : normalizeColName s =
      collapseUnderscores ((pyStrip (s.map pyLowerChar)).map replChar) := by
    unfold normalizeColName
    rw [← collapseUnderscores_map pyLowerChar_eq_underscore_iff]
    rw [pyStrip_map_pyLowerChar, List.map_map, List.map_map]
    exact congrArg collapseUnderscores
      (List.map_congr_left (fun c _ => (replChar_pyLowerChar c).symm))
  rw [hrw, containsSub_collapse kw hne hund, containsSub_map_replChar kw hsep]
  unfold pyStrip
  rw [containsSub_reverse]
  rw [containsSub_dropWhile_space kw.reverse (by simpa using hne)
    (fun c hc => hsp c (List.mem_reverse.mp hc))]
  rw [containsSub_reverse, List.reverse_reverse]
  rw [containsSub_dropWhile_space kw hne hsp]

/-! ## Data model

A pandas `DataFrame` as the pipeline sees it: an ordered list of named
columns, each with a dtype tag and an ordered list of cells.  A cell is
null (`NaN`/`NaT`/`None`), a string, a number, or a datetime value. -/

/-- A datetime value: either a calendar date parsed from text or an
epoch-based value (how `to_datetime` interprets numbers). -/
inductive Timestamp where
  | ofYmd : Nat → Nat → Nat → Timestamp
  | ofEpoch : Int → Timestamp
deriving DecidableEq, Repr

inductive Cell where
  | null : Cell
  | str : List Char → Cell
  | num : Int → Cell
  | date : Timestamp → Cell
deriving DecidableEq, Repr

/-- Column dtype tag (pandas `object` / numeric / `datetime64`). -/
inductive Dtype where
  | object : Dtype
  | numeric : Dtype
  | datetime : Dtype
deriving DecidableEq, Repr

structure Column where
  name : List Char
  dtype : Dtype
  cells : List Cell
deriving DecidableEq, Repr

structure DataFrame where
  cols : List Column
deriving DecidableEq, Repr

def isNullCell : Cell → Bool
  | .null => true
  | _ => false

def dfNames (df : DataFrame) : List (List Char) := df.cols.map Column.name

/-- Row count: pandas tables are rectangular, so the first column's
length is the table's row count. -/
def nrows (df : DataFrame) : Nat :=
  match df.cols with
  | [] => 0
  | c :: _ => c.cells.length

/-! ## Date parsing (collaborator model)

`pandas.to_datetime(..., errors="coerce")` restricted to ISO
`YYYY-MM-DD` text: a model of the black-box parser, faithful on the
format the claims exercise; any other text fails to parse. -/

def digitVal (c : Char) : Nat := c.toNat - 48

def parseDateStr (s : List Char) : Option Timestamp :=
  match s with
  | [y1, y2, y3, y4, h1, m1, m2, h2, d1, d2] =>
    if (h1 = '-' ∧ h2 = '-') ∧ ([y1, y2, y3, y4, m1, m2, d1, d2].all Char.isDigit) then
      let y := ((digitVal y1 * 10 + digitVal y2) * 10 + digitVal y3) * 10 + digitVal y4
      let m := digitVal m1 * 10 + digitVal m2
      let d := digitVal d1 * 10 + digitVal d2
      if 1 ≤ m ∧ m ≤ 12 ∧ 1 ≤ d ∧ d ≤ 31 then some (.ofYmd y m d) else none
    else none
  | _ => none

/-- One cell under `to_datetime(errors="coerce")`: nulls stay null,
datetimes stay, numbers are epoch values, text parses or becomes `NaT`
(modelled as `null`). -/
def pyToDatetime : Cell → Cell
  | .null => .null
  | .date t => .date t
  | .num n => .date (.ofEpoch n)
  | .str s =>
    match parseDateStr s with
    | some t => .date t
    | none => .null

/-- One cell under the `.str.strip()` accessor: strings are trimmed,
nulls stay null, non-string values become `NaN` (modelled as `null`). -/
def pyStrStripCell : Cell → Cell
  | .str s => .str (pyStrip s)
  | .null => .null
  | _ => .null

/-! ## Rename-specification parser -/

/-- Python `s.split(sep)` for a single-character separator (keeps empty
fields; `"".split(sep) = [""]`). -/
def splitOnChar (sep : Char) : List Char → List (List Char)
  | [] => [[]]
  | c :: rest =>
    let r := splitOnChar sep rest
    if c = sep then [] :: r
    else
      match r with
      | [] => [[c]]
      | h :: t => (c :: h) :: t

/-- Python dict assignment `m[k] = v`: update in place if the key is
present (insertion order kept), else append. -/
def dictInsert (m : List (List Char × List Char)) (k v : List Char) :
    List (List Char × List Char) :=
  if m.any (fun kv => decide (kv.1 = k)) then
    m.map (fun kv => if kv.1 = k then (k, v) else kv)
  else m ++ [(k, v)]

/-- First-match association lookup (Python dict read). -/
def dictLookup (m : List (List Char × List Char)) (k : List Char) :
    Option (List Char) :=
  match m with
  | [] => none
  | kv :: rest => if kv.1 = k then some kv.2 else dictLookup rest k

/-- The loop body of `parse_rename_arg` (src/data_prep.py:59–64): an
entry with a colon is split at the first colon and recorded under its
normalized left side; an entry without a colon only logs a warning. -/
def renameStep (acc : List (List Char × List Char) × Nat) (pair : List Char) :
    List (List Char × List Char) × Nat :=
  if ':' ∈ pair then
    (dictInsert acc.1
      (normalizeColName (pair.takeWhile (fun c => decide (c ≠ ':'))))
      (pyStrip ((pair.dropWhile (fun c => decide (c ≠ ':'))).drop 1)), acc.2)
  else (acc.1, acc.2 + 1)

/-- Embeds `parse_rename_arg` (src/data_prep.py:50–65).  Returns the mapping
`{normalize(old): new.strip()}` together with the number of warnings
logged for entries lacking a colon. -/
def parse_rename_arg (arg : Option (List Char)) :
    List (List Char × List Char) × Nat :=
  match arg with
  | none => ([], 0)
  | some a =>
    if a.isEmpty then ([], 0)
    else
      let pairs := ((splitOnChar ',' a).map pyStrip).filter (fun p => !p.isEmpty)
      pairs.foldl renameStep ([], 0)

/-! ## Date-column auto-detection -/

/-- The per-column test of `auto_detect_date_cols`
(src/data_prep.py:68–74): one of the four keywords occurs in the
lower-cased raw column name. -/
def autoDetectCond (name : List Char) : Bool :=
  containsSub "date".data (name.map pyLowerChar) ||
  containsSub "time".data (name.map pyLowerChar) ||
  containsSub "created".data (name.map pyLowerChar) ||
  containsSub "updated".data (name.map pyLowerChar)

/-- Embeds `auto_detect_date_cols` (src/data_prep.py:68–74): the loop appending
every matching column name is the filter of the name list. -/
def auto_detect_date_cols (df : DataFrame) : List (List Char) :=
  (dfNames df).filter autoDetectCond

/-! ## Date coercion step -/

/-- A column converted by `to_datetime`: every cell coerced, dtype
becomes datetime. -/
def parseColumn (col : Column) : Column :=
  { col with dtype := .datetime, cells := col.cells.map pyToDatetime }

/-- Embeds `try_parse_dates` (src/data_prep.py:77–91): for each requested name
in order, if a column with that name exists, coerce it cell-wise
(assignment `df[c] = ...` touches every column carrying that name);
absent names are only warned about. -/
def try_parse_dates (df : DataFrame) (cols : List (List Char)) : DataFrame :=
  cols.foldl (fun d c =>
    if c ∈ dfNames d then
      ⟨d.cols.map (fun col => if col.name = c then parseColumn col else col)⟩
    else d) df

/-! ## Remaining pipeline steps of `process_dataframe` -/

/-- Step 1 (src/data_prep.py:124–127): rename every column through
`normalize_col_name`. -/
def renameNormalize (df : DataFrame) : DataFrame :=
  ⟨df.cols.map (fun c => { c with name := normalizeColName c.name })⟩

/-- Step 2 (src/data_prep.py:130–137): apply only the rename entries
whose key currently exists as a column name; if none matches, the table
is left alone (a warning is logged). -/
def applyRenameMap (rename_map : List (List Char × List Char)) (df : DataFrame) :
    DataFrame :=
  let applicable := rename_map.filter (fun kv => decide (kv.1 ∈ dfNames df))
  if applicable.isEmpty then df
  else
    ⟨df.cols.map (fun c =>
      match dictLookup applicable c.name with
      | some new => { c with name := new }
      | none => c)⟩

/-- Step 3 (src/data_prep.py:140–144): `.str.strip()` over every
object-dtype column. -/
def stripCells (col : Column) : Column :=
  if col.dtype = .object then { col with cells := col.cells.map pyStrStripCell }
  else col

def stripStringCols (df : DataFrame) : DataFrame :=
  ⟨df.cols.map stripCells⟩

/-! Step 5 (src/data_prep.py:151–173): the missing-value resolver as row
selections over the rectangular table. -/

def rowAllNull (df : DataFrame) (i : Nat) : Bool :=
  df.cols.all (fun c => isNullCell (c.cells.getD i .null))

def rowAnyNull (df : DataFrame) (i : Nat) : Bool :=
  df.cols.any (fun c => isNullCell (c.cells.getD i .null))

def rowNonNullCount (df : DataFrame) (i : Nat) : Nat :=
  df.cols.countP (fun c => !isNullCell (c.cells.getD i .null))

/-- Keep exactly the row indices satisfying `keep`, in order, in every
column. -/
def selectRows (df : DataFrame) (keep : Nat → Bool) : DataFrame :=
  ⟨df.cols.map (fun c =>
    { c with cells :=
        (((List.range (nrows df)).filter keep).map (fun i => c.cells.getD i .null)) })⟩

/-- Embeds `df.dropna(how="all")`. -/
def dropAllNullRows (df : DataFrame) : DataFrame :=
  selectRows df (fun i => !rowAllNull df i)

/-- Embeds `df.dropna(how="any")`. -/
def dropAnyNullRows (df : DataFrame) : DataFrame :=
  selectRows df (fun i => !rowAnyNull df i)

/-- Embeds `df.dropna(thresh=t)`: keep rows with at least `t` non-null values. -/
def dropThreshRows (t : Int) (df : DataFrame) : DataFrame :=
  selectRows df (fun i => decide (t ≤ (rowNonNullCount df i : Int)))

/-- Embeds `df.fillna(v)` for the CLI's string fill value: every null cell in
every column becomes the string `v`, other cells are untouched. -/
def fillCell (v : List Char) : Cell → Cell
  | .null => .str v
  | c => c

def fillAllNulls (v : List Char) (df : DataFrame) : DataFrame :=
  ⟨df.cols.map (fun c => { c with cells := c.cells.map (fillCell v) })⟩

/-- Embeds `process_dataframe` (src/data_prep.py:114–174).  Note the Python
truthiness tests: the date-parsing step runs only for a nonempty column
list, and `if dropna_thresh:` skips both `None` and `0`. -/
def process_dataframe (df : DataFrame) (date_cols : List (List Char))
    (rename_map : List (List Char × List Char)) (fillna_value : Option (List Char))
    (dropna_any : Bool) (dropna_thresh : Option Int)
    (strip_strings : Bool) : DataFrame :=
  let d1 := renameNormalize df
  let d2 := if rename_map.isEmpty then d1 else applyRenameMap rename_map d1
  let d3 := if strip_strings then stripStringCols d2 else d2
  let d4 := if date_cols.isEmpty then d3 else try_parse_dates d3 date_cols
  let d5 := dropAllNullRows d4
  let d6 := if dropna_any then dropAnyNullRows d5 else d5
  let d7 :=
    match dropna_thresh with
    | some t => if t ≠ 0 then dropThreshRows t d6 else d6
    | none => d6
  match fillna_value with
  | some v => fillAllNulls v d7
  | none => d7

/-! ## Loader and exporter boundary, CLI (`main`) -/

inductive LoadError where
  | readFailure : LoadError
  | noData : LoadError
deriving DecidableEq, Repr

/-- Read results for the listed sources, aborting at the first
unreadable file (`pd.read_csv` raising is re-raised after logging). -/
def collectFrames : List (Option DataFrame) → Except LoadError (List DataFrame)
  | [] => .ok []
  | none :: _ => .error .readFailure
  | some df :: rest =>
    match collectFrames rest with
    | .ok dfs => .ok (df :: dfs)
    | .error e => .error e

/-- Model of the collaborator `pandas.concat(dfs, ignore_index=True)`:
columns aligned by name in order of first appearance, missing columns
padded with nulls. -/
def concatFrames (dfs : List DataFrame) : DataFrame :=
  let names := dfs.foldl (fun acc d =>
    (dfNames d).foldl (fun a n => if n ∈ a then a else a ++ [n]) acc) []
  ⟨names.map (fun n =>
    let dtype :=
      match dfs.findSome? (fun d => d.cols.find? (fun c => decide (c.name = n))) with
      | some c => c.dtype
      | none => .object
    { name := n, dtype := dtype,
      cells := dfs.flatMap (fun d =>
        match d.cols.find? (fun c => decide (c.name = n)) with
        | some c => c.cells
        | none => List.replicate (nrows d) Cell.null) })⟩

/-- Embeds `load_and_concat` (src/data_prep.py:94–110): any read failure
aborts the whole load; zero loaded frames is an error; one frame is
returned as-is; several are concatenated row-wise. -/
def load_and_concat (files : List (Option DataFrame)) :
    Except LoadError DataFrame :=
  match collectFrames files with
  | .error e => .error e
  | .ok [] => .error .noData
  | .ok [df] => .ok df
  | .ok dfs => .ok (concatFrames dfs)

/-- Embeds `pathlib.PurePath.suffix` of the final path component: from the last
dot, provided that dot is neither the leading character of the name nor
its last character. -/
def afterLastSlash (p : List Char) : List Char :=
  (p.reverse.takeWhile (fun c => decide (c ≠ '/'))).reverse

def rfindDot (name : List Char) : Option Nat :=
  match name.reverse.findIdx? (fun c => decide (c = '.')) with
  | some j => some (name.length - 1 - j)
  | none => none

def pathSuffix (p : List Char) : List Char :=
  let name := afterLastSlash p
  match rfindDot name with
  | some i => if 0 < i ∧ i < name.length - 1 then name.drop i else []
  | none => []

/-- The output check of `main` (src/data_prep.py:236):
`output_path.suffix.lower() == ".xlsx"`. -/
def extOkB (p : List Char) : Bool :=
  decide ((pathSuffix p).map pyLowerChar = ".xlsx".data)

/-- One configured input path: whether `Path.exists()` holds, and the
table `pd.read_csv` would produce (`none` = the read raises). -/
structure InputFile where
  present : Bool
  content : Option DataFrame
deriving Repr

/-- The parsed command line plus oracles for the two collaborator
failure modes `main` only observes as exceptions (a processing
exception inside `process_dataframe`, an export/IO exception inside
`export_to_excel`). -/
structure Config where
  inputs : List InputFile
  output : List Char
  dateColsArg : Option (List Char)
  renameArg : Option (List Char)
  fillna : Option (List Char)
  dropnaAny : Bool
  dropnaThresh : Option Int
  processRaises : Bool
  exportRaises : Bool
deriving Repr

/-- Embeds the `--date-cols` splitting (src/data_prep.py:242–245). -/
def parseCommaList (arg : Option (List Char)) : List (List Char) :=
  match arg with
  | none => []
  | some a =>
    if a.isEmpty then []
    else ((splitOnChar ',' a).map pyStrip).filter (fun p => !p.isEmpty)

/-- Date-column selection in `main` (src/data_prep.py:254–261): when the
parsed `--date-cols` list is empty, fall back to auto-detection over the
loaded table (keeping the empty list if nothing is detected, which is
what the `if auto:` branch amounts to). -/
def effectiveDateCols (df : DataFrame) (arg : Option (List Char)) :
    List (List Char) :=
  let flags := parseCommaList arg
  if flags.isEmpty then auto_detect_date_cols df else flags

/-- Embeds `main` (src/data_prep.py:224–288).  Result: the process exit code
(`0` = success, `sys.exit(n)` otherwise), whether loading of input files
was ever started, and the processed table on success. -/
def mainRun (cfg : Config) : Nat × Bool × Option DataFrame :=
  if cfg.inputs.any (fun f => !f.present) then (2, false, none)
  else if !extOkB cfg.output then (2, false, none)
  else
    let rename_map := (parse_rename_arg cfg.renameArg).1
    match load_and_concat (cfg.inputs.map InputFile.content) with
    | .error _ => (3, true, none)
    | .ok df =>
      let dateCols := effectiveDateCols df cfg.dateColsArg
      let rename_map_normalized := rename_map.foldl
        (fun m kv => dictInsert m (normalizeColName kv.1) kv.2) []
      if cfg.processRaises then (4, true, none)
      else
        let processed := process_dataframe df (dateCols.map normalizeColName)
          rename_map_normalized cfg.fillna cfg.dropnaAny cfg.dropnaThresh true
        if cfg.exportRaises then (5, true, none)
        else (0, true, some processed)

/-! ## Claim theorems -/

/-- C5: parsing `"A:b,C:d"` yields exactly the mapping
`{normalize("A") ↦ "b", normalize("C") ↦ "d"}` (with zero warnings); an
entry with no colon contributes nothing to the mapping and records a
warning; `"A"` alone yields the empty mapping with one warning; absent
or empty input yields the empty mapping. -/
theorem parse_rename_arg_spec :
    parse_rename_arg (some "A:b,C:d".data) =
      ([(normalizeColName "A".data, "b".data),
        (normalizeColName "C".data, "d".data)], 0)
    ∧ (∀ (acc : List (List Char × List Char) × Nat) (pair : List Char),
        ':' ∉ pair → renameStep acc pair = (acc.1, acc.2 + 1))
    ∧ parse_rename_arg (some "A".data) = ([], 1)
    ∧ parse_rename_arg none = ([], 0)
    ∧ parse_rename_arg (some "".data) = ([], 0) := by
  refine ⟨by decide, ?_, by decide, rfl, by decide⟩
  intro acc pair h
  unfold renameStep
  rw [if_neg h]

theorem parse_rename_arg_spec_witness :
    ':' ∉ "A".data ∧ renameStep ([], 0) "A".data = ([], 0 + 1) :=
  ⟨by decide, parse_rename_arg_spec.2.1 ([], 0) "A".data (by decide)⟩

/-! ### Date coercion (C4) -/

theorem pyToDatetime_idem (x : Cell) :
    pyToDatetime (pyToDatetime x) = pyToDatetime x := by
  cases x with
  | null => rfl
  | num n => rfl
  | date t => rfl
  | str s =>
    cases h : parseDateStr s with
    | none => simp [pyToDatetime, h]
    | some t => simp [pyToDatetime, h]

theorem parseColumn_idem (c : Column) : parseColumn (parseColumn c) = parseColumn c := by
  unfold parseColumn
  simp [List.map_map]
  intro x _
  exact pyToDatetime_idem x

theorem name_parseColumn (c : Column) : (parseColumn c).name = c.name := rfl

theorem try_parse_dates_eq_map (df : DataFrame) (cols : List (List Char)) :
    (try_parse_dates df cols).cols =
      df.cols.map (fun c => if c.name ∈ cols then parseColumn c else c) := by
  induction cols generalizing df with
  | nil =>
    show df.cols = _
    have h : ∀ c ∈ df.cols, (if c.name ∈ ([] : List (List Char)) then parseColumn c else c) = id c := by
      intro c _
      simp
    rw [List.map_congr_left h, List.map_id]
  | cons x rest ih =>
    show (try_parse_dates (if x ∈ dfNames df then
        ⟨df.cols.map (fun col => if col.name = x then parseColumn col else col)⟩
      else df) rest).cols = _
    by_cases hx : x ∈ dfNames df
    · rw [if_pos hx, ih, List.map_map]
      apply List.map_congr_left
      intro c _
      by_cases hcx : c.name = x
      · have hg : ((fun col => if col.name = x then parseColumn col else col) c) =
            parseColumn c := by simp [hcx]
        show (fun c => if c.name ∈ rest then parseColumn c else c)
            ((fun col => if col.name = x then parseColumn col else col) c) = _
        rw [hg]
        show (if (parseColumn c).name ∈ rest then parseColumn (parseColumn c)
          else parseColumn c) = _
        rw [name_parseColumn,
          if_pos (show c.name ∈ x :: rest by rw [hcx]; exact List.mem_cons_self x rest)]
        by_cases hr : c.name ∈ rest
        · rw [if_pos hr]
          exact parseColumn_idem c
        · rw [if_neg hr]
      · have hg : ((fun col => if col.name = x then parseColumn col else col) c) = c := by
          simp [hcx]
        show (fun c => if c.name ∈ rest then parseColumn c else c)
            ((fun col => if col.name = x then parseColumn col else col) c) = _
        rw [hg]
        show (if c.name ∈ rest then parseColumn c else c) = _
        by_cases hr : c.name ∈ rest
        · rw [if_pos hr, if_pos (List.mem_cons_of_mem x hr)]
        · rw [if_neg hr, if_neg (by
            intro hc
            rcases List.mem_cons.mp hc with h1 | h1
            · exact hcx h1
            · exact hr h1)]
    · rw [if_neg hx, ih]
      apply List.map_congr_left
      intro c hc
      have hcx : c.name ≠ x := by
        intro hceq
        exact hx (hceq ▸ List.mem_map_of_mem Column.name hc)
      by_cases hr : c.name ∈ rest
      · rw [if_pos hr, if_pos (List.mem_cons_of_mem x hr)]
      · rw [if_neg hr, if_neg (by
          intro hcm
          rcases List.mem_cons.mp hcm with h1 | h1
          · exact hcx h1
          · exact hr h1)]

/-- The concrete table of the claim: one designated date column
`created_at` holding `"2024-01-01"` and `"not-a-date"`. -/
def dfDateExample : DataFrame :=
  ⟨[⟨"created_at".data, .object,
    [.str "2024-01-01".data, .str "not-a-date".data]⟩]⟩

/-- C4: date coercion acts independently on every cell of every
requested column that is present (absent names leave the table parts
untouched, other columns are unchanged), a cell that fails to parse
becomes the null marker, and on the column `created_at` containing
`"2024-01-01"` and `"not-a-date"` the result is the parsed date followed
by null.  The step is a total function — it never raises. -/
theorem try_parse_dates_spec (df : DataFrame) (cols : List (List Char)) :
    ((try_parse_dates df cols).cols =
      df.cols.map (fun c => if c.name ∈ cols then parseColumn c else c))
    ∧ (∀ s, parseDateStr s = none → pyToDatetime (.str s) = .null)
    ∧ ((try_parse_dates dfDateExample ["created_at".data]).cols =
        [⟨"created_at".data, .datetime, [.date (.ofYmd 2024 1 1), .null]⟩]) := by
  refine ⟨try_parse_dates_eq_map df cols, ?_, by decide⟩
  intro s hs
  show (match parseDateStr s with
    | some t => Cell.date t
    | none => Cell.null) = Cell.null
  rw [hs]

theorem try_parse_dates_spec_witness :
    parseDateStr "not-a-date".data = none ∧
    pyToDatetime (.str "not-a-date".data) = .null :=
  ⟨by decide,
    (try_parse_dates_spec dfDateExample []).2.1 "not-a-date".data (by decide)⟩

/-! ### String trimming (C3) -/

/-- C3: the trimmer leaves the column count and every column's row count
unchanged; non-object (non-text) columns are returned untouched; in an
object (text) column every string cell is replaced by its
whitespace-stripped form and every null cell stays null. -/
theorem strip_strings_spec (df : DataFrame) :
    ((stripStringCols df).cols.length = df.cols.length)
    ∧ (∀ (i : Nat) (col : Column), df.cols[i]? = some col →
        (stripStringCols df).cols[i]? = some (stripCells col)
        ∧ (stripCells col).cells.length = col.cells.length
        ∧ (col.dtype ≠ Dtype.object → stripCells col = col)
        ∧ (col.dtype = Dtype.object →
            ∀ (j : Nat) (str0 : List Char), col.cells[j]? = some (Cell.str str0) →
              (stripCells col).cells[j]? = some (Cell.str (pyStrip str0)))
        ∧ (col.dtype = Dtype.object →
            ∀ (j : Nat), col.cells[j]? = some Cell.null →
              (stripCells col).cells[j]? = some Cell.null)) := by
  constructor
  · show (df.cols.map stripCells).length = _
    exact List.length_map _ _
  · intro i col hcol
    refine ⟨?_, ?_, ?_, ?_, ?_⟩
    · show (df.cols.map stripCells)[i]? = _
      rw [List.getElem?_map, hcol]
      rfl
    · unfold stripCells
      by_cases hd : col.dtype = .object
      · rw [if_pos hd]
        exact List.length_map _ _
      · rw [if_neg hd]
    · intro hd
      unfold stripCells
      rw [if_neg hd]
    · intro hd j str0 hcell
      unfold stripCells
      rw [if_pos hd]
      show (col.cells.map pyStrStripCell)[j]? = _
      rw [List.getElem?_map, hcell]
      rfl
    · intro hd j hcell
      unfold stripCells
      rw [if_pos hd]
      show (col.cells.map pyStrStripCell)[j]? = _
      rw [List.getElem?_map, hcell]
      rfl

def dfStripExample : DataFrame :=
  ⟨[⟨"name".data, .object, [.str "  x ".data, .null]⟩,
    ⟨"qty".data, .numeric, [.num 3, .num 4]⟩]⟩

theorem strip_strings_spec_witness :
    (stripStringCols dfStripExample).cols[0]? =
      some (stripCells ⟨"name".data, .object, [.str "  x ".data, .null]⟩)
    ∧ (stripCells ⟨"name".data, .object, [.str "  x ".data, .null]⟩).cells[0]? =
      some (.str (pyStrip "  x ".data))
    ∧ stripCells ⟨"qty".data, .numeric, [.num 3, .num 4]⟩ =
      ⟨"qty".data, .numeric, [.num 3, .num 4]⟩ := by
  have h0 := (strip_strings_spec dfStripExample).2 0
    ⟨"name".data, .object, [.str "  x ".data, .null]⟩ rfl
  have h1 := (strip_strings_spec dfStripExample).2 1
    ⟨"qty".data, .numeric, [.num 3, .num 4]⟩ rfl
  exact ⟨h0.1, h0.2.2.2.1 rfl 0 "  x ".data rfl, h1.2.2.1 (by decide)⟩

/-! ### Fill value (C6) -/

theorem fillCell_ne_null (v : List Char) (x : Cell) : fillCell v x ≠ .null := by
  cases x <;> simp [fillCell]

/-- C6: with a configured fill value the pipeline result is exactly the
fill step applied after all drop sub-steps (the fill runs last), and the
resulting table has zero null cells in every column. -/
theorem fillna_runs_last_and_fills (df : DataFrame) (date_cols : List (List Char))
    (rename_map : List (List Char × List Char)) (v : List Char)
    (dropna_any : Bool) (dropna_thresh : Option Int) (strip_strings : Bool) :
    process_dataframe df date_cols rename_map (some v) dropna_any dropna_thresh
        strip_strings =
      fillAllNulls v (process_dataframe df date_cols rename_map none dropna_any
        dropna_thresh strip_strings)
    ∧ (∀ col ∈ (process_dataframe df date_cols rename_map (some v) dropna_any
          dropna_thresh strip_strings).cols,
        ∀ cell ∈ col.cells, cell ≠ .null) := by
  constructor
  · rfl
  · intro col hcol cell hcell
    have hcol' : col ∈ (fillAllNulls v (process_dataframe df date_cols rename_map
        none dropna_any dropna_thresh strip_strings)).cols := hcol
    rcases List.mem_map.mp hcol' with ⟨c0, _, hc0⟩
    rw [← hc0] at hcell
    rcases List.mem_map.mp hcell with ⟨x, _, hx⟩
    rw [← hx]
    exact fillCell_ne_null v x

/-! ### Wrong output extension (C9) -/

/-- C9: whenever the output path fails the `.xlsx` extension check, the
run exits with code 2 before any input file is read — no load is
attempted and no output table is produced. -/
theorem wrong_extension_rejected (cfg : Config) (h : extOkB cfg.output = false) :
    (mainRun cfg).1 = 2 ∧ (mainRun cfg).2.1 = false ∧ (mainRun cfg).2.2 = none := by
  unfold mainRun
  by_cases h1 : cfg.inputs.any (fun f => !f.present) = true
  · simp [h1]
  · simp [h1, h]

def cfgBadExt : Config :=
  ⟨[⟨true, some ⟨[]⟩⟩], "out.csv".data, none, none, none, false, none, false, false⟩

theorem wrong_extension_rejected_witness :
    extOkB "out.csv".data = false ∧
    (mainRun cfgBadExt).1 = 2 ∧ (mainRun cfgBadExt).2.1 = false :=
  ⟨by decide, (wrong_extension_rejected cfgBadExt (by decide)).1,
    (wrong_extension_rejected cfgBadExt (by decide)).2.1⟩

/-! ### Loader aborts on any unreadable source (C10) -/

/-- C10: if any listed source is unreadable, `load_and_concat` raises —
it never returns a (partially concatenated) table, even when other
sources are readable. -/
theorem load_and_concat_aborts (files : List (Option DataFrame))
    (h : none ∈ files) : ∀ df, load_and_concat files ≠ .ok df := by
  have herr : ∃ e, collectFrames files = .error e := by
    induction files with
    | nil => simp at h
    | cons f rest ih =>
      cases f with
      | none => exact ⟨.readFailure, rfl⟩
      | some d =>
        have hr : none ∈ rest := by
          rcases List.mem_cons.mp h with h1 | h1
          · exact absurd h1 (by simp)
          · exact h1
        rcases ih hr with ⟨e, he⟩
        refine ⟨e, ?_⟩
        show (match collectFrames rest with
          | .ok dfs => Except.ok (d :: dfs)
          | .error e => Except.error e) = _
        rw [he]
  rcases herr with ⟨e, he⟩
  intro df
  unfold load_and_concat
  rw [he]
  simp

theorem load_and_concat_aborts_witness :
    load_and_concat [some (⟨[]⟩ : DataFrame), none] ≠ .ok (⟨[]⟩ : DataFrame) :=
  load_and_concat_aborts [some ⟨[]⟩, none] (by decide) ⟨[]⟩

/-! ### Exit codes (C2) -/

def cfgMissingInput : Config :=
  ⟨[⟨false, none⟩], "out.xlsx".data, none, none, none, false, none, false, false⟩

def cfgWrongExtOut : Config :=
  ⟨[⟨true, some ⟨[]⟩⟩], "out.csv".data, none, none, none, false, none, false, false⟩

/-- C2 counterexample: a missing input path and a wrong output extension
are different failure classes, yet both runs exit with the same code 2 —
the exit codes of distinct failure classes do not all differ. -/
theorem exit_code_collision_cex :
    mainRun cfgMissingInput = (2, false, none) ∧
    mainRun cfgWrongExtOut = (2, false, none) :=
  ⟨by decide, by decide⟩

/-- C2 (amended): load failure, processing failure and export failure
exit with the pairwise distinct codes 3, 4 and 5, each different from
the argument-validation code 2; but the two validation failures —
missing input path and wrong output extension — share exit code 2. -/
theorem main_exit_codes (cfg : Config) :
    ((∃ f ∈ cfg.inputs, f.present = false) → (mainRun cfg).1 = 2)
    ∧ ((∀ f ∈ cfg.inputs, f.present = true) → extOkB cfg.output = false →
        (mainRun cfg).1 = 2)
    ∧ (∀ e, (∀ f ∈ cfg.inputs, f.present = true) → extOkB cfg.output = true →
        load_and_concat (cfg.inputs.map InputFile.content) = .error e →
        (mainRun cfg).1 = 3)
    ∧ (∀ df0, (∀ f ∈ cfg.inputs, f.present = true) → extOkB cfg.output = true →
        load_and_concat (cfg.inputs.map InputFile.content) = .ok df0 →
        cfg.processRaises = true → (mainRun cfg).1 = 4)
    ∧ (∀ df0, (∀ f ∈ cfg.inputs, f.present = true) → extOkB cfg.output = true →
        load_and_concat (cfg.inputs.map InputFile.content) = .ok df0 →
        cfg.processRaises = false → cfg.exportRaises = true →
        (mainRun cfg).1 = 5) := by
  have hany : (∀ f ∈ cfg.inputs, f.present = true) →
      cfg.inputs.any (fun f => !f.present) = false := by
    intro hall
    rw [List.any_eq_false]
    intro f hf
    simp [hall f hf]
  refine ⟨?_, ?_, ?_, ?_, ?_⟩
  · rintro ⟨f, hf, hp⟩
    have h1 : cfg.inputs.any (fun f => !f.present) = true :=
      List.any_eq_true.mpr ⟨f, hf, by simp [hp]⟩
    simp [mainRun, h1]
  · intro hall hext
    simp [mainRun, hany hall, hext]
  · intro e hall hext hload
    simp [mainRun, hany hall, hext, hload]
  · intro df0 hall hext hload hproc
    simp [mainRun, hany hall, hext, hload, hproc]
  · intro df0 hall hext hload hproc hexp
    simp [mainRun, hany hall, hext, hload, hproc, hexp]

def cfgLoadFail : Config :=
  ⟨[⟨true, none⟩], "out.xlsx".data, none, none, none, false, none, false, false⟩

def cfgProcFail : Config :=
  ⟨[⟨true, some ⟨[]⟩⟩], "out.xlsx".data, none, none, none, false, none, true, false⟩

def cfgExpFail : Config :=
  ⟨[⟨true, some ⟨[]⟩⟩], "out.xlsx".data, none, none, none, false, none, false, true⟩

theorem main_exit_codes_witness :
    (mainRun cfgLoadFail).1 = 3 ∧ (mainRun cfgProcFail).1 = 4 ∧
    (mainRun cfgExpFail).1 = 5 :=
  ⟨(main_exit_codes cfgLoadFail).2.2.1 .readFailure (by decide) (by decide) rfl,
   (main_exit_codes cfgProcFail).2.2.2.1 ⟨[]⟩ (by decide) (by decide) rfl
      (by decide),
   (main_exit_codes cfgExpFail).2.2.2.2 ⟨[]⟩ (by decide) (by decide) rfl
      (by decide) (by decide)⟩

/-! ### Auto-detection of date columns (C7) -/

/-- C7: auto-detection is used exactly when the user-supplied date
column list is empty, and a column is selected iff one of the keywords
`date`, `time`, `created`, `updated` occurs as a substring of its
normalized (hence lower-case) name — which the keyword-preservation
lemmas show is the same test the code makes on the lower-cased raw
name. -/
theorem auto_detect_spec (df : DataFrame) (arg : Option (List Char)) :
    (parseCommaList arg = [] → effectiveDateCols df arg = auto_detect_date_cols df)
    ∧ (parseCommaList arg ≠ [] → effectiveDateCols df arg = parseCommaList arg)
    ∧ (∀ c, c ∈ auto_detect_date_cols df ↔
        (c ∈ dfNames df ∧
          ("date".data <:+: normalizeColName c ∨
           "time".data <:+: normalizeColName c ∨
           "created".data <:+: normalizeColName c ∨
           "updated".data <:+: normalizeColName c))) := by
  refine ⟨?_, ?_, ?_⟩
  · intro h
    unfold effectiveDateCols
    rw [h]
    simp
  · intro h
    have hfalse : (parseCommaList arg).isEmpty = false := by
      rcases hq : parseCommaList arg with _ | ⟨x, xs⟩
      · exact absurd hq h
      · rfl
    show (if (parseCommaList arg).isEmpty = true then auto_detect_date_cols df
      else parseCommaList arg) = parseCommaList arg
    rw [hfalse]
    simp
  · intro c
    have hkey : ∀ (kw : List Char), kw ≠ [] →
        (∀ ch ∈ kw, 97 ≤ ch.toNat ∧ ch.toNat ≤ 122) →
        (containsSub kw (c.map pyLowerChar) = true ↔ kw <:+: normalizeColName c) := by
      intro kw h1 h2
      rw [← containsSub_normalizeColName kw h1 h2 c]
      exact containsSub_correct kw _
    have hd := hkey "date".data (by decide) (by decide)
    have ht := hkey "time".data (by decide) (by decide)
    have hcr := hkey "created".data (by decide) (by decide)
    have hu := hkey "updated".data (by decide) (by decide)
    constructor
    · intro hmem
      unfold auto_detect_date_cols at hmem
      have h1 := List.mem_filter.mp hmem
      refine ⟨h1.1, ?_⟩
      have h2 : autoDetectCond c = true := h1.2
      unfold autoDetectCond at h2
      simp only [Bool.or_eq_true] at h2
      rcases h2 with ((h3 | h3) | h3) | h3
      · exact Or.inl (hd.mp h3)
      · exact Or.inr (Or.inl (ht.mp h3))
      · exact Or.inr (Or.inr (Or.inl (hcr.mp h3)))
      · exact Or.inr (Or.inr (Or.inr (hu.mp h3)))
    · rintro ⟨hmem, hcond⟩
      unfold auto_detect_date_cols
      apply List.mem_filter.mpr
      refine ⟨hmem, ?_⟩
      unfold autoDetectCond
      simp only [Bool.or_eq_true]
      rcases hcond with h3 | h3 | h3 | h3
      · exact Or.inl (Or.inl (Or.inl (hd.mpr h3)))
      · exact Or.inl (Or.inl (Or.inr (ht.mpr h3)))
      · exact Or.inl (Or.inr (hcr.mpr h3))
      · exact Or.inr (hu.mpr h3)

def dfAuto : DataFrame :=
  ⟨[⟨"Sale-Date".data, .object, []⟩, ⟨"qty".data, .numeric, []⟩]⟩

theorem auto_detect_spec_witness :
    effectiveDateCols dfAuto none = auto_detect_date_cols dfAuto
    ∧ effectiveDateCols dfAuto (some "created_at".data) =
        parseCommaList (some "created_at".data) :=
  ⟨(auto_detect_spec dfAuto none).1 rfl,
   (auto_detect_spec dfAuto (some "created_at".data)).2.1 (by decide)⟩
